import Mathlib

/-!
Verification development for the `pydriosm` GeoFabrik downloader
(`src/pydriosm/geofabrik.py`).

The Python source is shallowly embedded: external collaborators
(network fetch + HTML table extraction, `humanfriendly.parse_size`,
`pyhelpers.text.find_similar_str`, the pickle cache, the interactive
confirmation prompt and the single-file downloader) are passed in as
explicit function arguments or data, and the repository's own logic
(catalog compaction, hierarchy compilation, URL resolution, the
download orchestrator loop) is translated function by function.
Where the Python code can loop on collaborator-supplied data, the
embedding takes a fuel parameter; exhausting the fuel is reported by a
distinguished result.
-/

namespace Pydriosm

/-- One row of a subregion download table, as assembled by
`get_subregion_table`: subregion name, the URL of the subregion's own
listing page, the per-format download URLs (absent when the format is
not offered) and the raw `.osm.pbf.Size` string. -/
structure CatalogRow where
  subregion : String
  subregionURL : String
  pbfURL : Option String
  shpURL : Option String
  bz2URL : Option String
  pbfSize : Option String
deriving DecidableEq, Repr

/-- A parsed page table: the list of its rows. -/
abbrev Table := List CatalogRow

/-- The error kinds caught by `get_subregion_table`
(`except (ValueError, TypeError, ConnectionRefusedError, ConnectionError)`). -/
inductive PageError where
  | valueError : PageError
  | typeError : PageError
  | connectionRefused : PageError
  | connectionErr : PageError
deriving DecidableEq, Repr

/-- `GeoFabrik.ValidFileFormats` from `__init__`. -/
def ValidFileFormats : List String := [".osm.pbf", ".shp.zip", ".osm.bz2"]

/-- `get_subregion_table`: the fetch-and-parse of one listing page.
The fetching/parsing collaborators are summarised by the
`Except PageError Table` outcome; the function's own contribution that
the claims depend on is the error policy of lines 110-115: any of the
caught error kinds yields the no-table sentinel `None`. -/
def get_subregion_table (page : Except PageError Table) : Option Table :=
  match page with
  | .ok t => some t
  | .error _ => none

/-- `self.get_subregion_table(url)` as used by the crawler: fetch the
page through the collaborator `fetcher` and apply the error policy. -/
def fetchTable (fetcher : String → Except PageError Table) (url : String) : Option Table :=
  get_subregion_table (fetcher url)

/-- Python `str.strip(c)`: remove every leading and trailing copy of
the character `c`. -/
def stripChar (c : Char) (s : String) : String :=
  ⟨((s.toList.dropWhile (· == c)).reverse.dropWhile (· == c)).reverse⟩

/-- The size-string cleaning applied before `humanfriendly.parse_size`:
`x.strip('(').strip(')').replace('\xa0', ' ')`. -/
def cleanSizeStr (s : String) : String :=
  ⟨((stripChar ')' (stripChar '(' s)).toList.map
      (fun ch => if ch = Char.ofNat 160 then ' ' else ch))⟩

/-- Python `range(start, stop, step)` for a positive `step`. -/
def pythonRange (start stop step : Nat) : List Nat :=
  if step = 0 then []
  else (List.range ((stop - start + step - 1) / step)).map (fun i => start + i * step)

/-- A catalogue carrying its pandas row labels: pairs of (index label, row). -/
abbrev Catalogue := List (Nat × CatalogRow)

/-- `pd.concat(..., ignore_index=True)`: concatenate the tables and
label the rows `0, 1, 2, ...`. -/
def concatIgnoreIndex (tables : List Table) : Catalogue :=
  (tables.flatten).enum

/-- `DataFrame.drop_duplicates()`: remove rows whose full value equals
an earlier row's value, keeping the first occurrence and its label. -/
def dropDuplicateRows : List CatalogRow → Catalogue → Catalogue
  | _, [] => []
  | seen, (lbl, r) :: rest =>
    if r ∈ seen then dropDuplicateRows seen rest
    else (lbl, r) :: dropDuplicateRows (r :: seen) rest

/-- `Subregion.duplicated(keep=False)` selection: the rows whose
subregion name occurs in two or more rows of the catalogue, in
catalogue order. -/
def duplicatedRows (cat : Catalogue) : Catalogue :=
  cat.filter (fun p =>
    2 ≤ (cat.filter (fun q => q.2.subregion == p.2.subregion)).length)

/-- Parse the primary-format size of each row of `temp`, mirroring
`temp['.osm.pbf.Size'].map(lambda x: humanfriendly.parse_size(...))`.
`parseSize` stands for the external `humanfriendly.parse_size`; a row
whose size cell is `None` makes the Python lambda raise, reported here
as `none`. -/
def parsedSizes (parseSize : String → Nat) (temp : Catalogue) :
    Option (List (Nat × Nat)) :=
  temp.mapM (fun p => p.2.pbfSize.map (fun s => (p.1, parseSize (cleanSizeStr s))))

/-- One iteration of the duplicate-resolution loop body at index `i`:
take `duplicated.iloc[i:i+2]`, parse the two sizes, and drop from the
catalogue every label of that slice whose size equals the slice
minimum. `none` reports the exception raised on a missing size cell. -/
def dropSmallerOfPair (parseSize : String → Nat) (dup : Catalogue) (i : Nat)
    (cat : Catalogue) : Option Catalogue :=
  let temp := (dup.drop i).take 2
  match parsedSizes parseSize temp with
  | none => none
  | some sizes =>
    match (sizes.map Prod.snd).min? with
    | none => some cat
    | some m =>
      let idx := (sizes.filter (fun p => p.2 == m)).map Prod.fst
      some (cat.filter (fun p => p.1 ∉ idx))

/-- Lines 549-561 of `get_subregion_downloads_catalogue`: exact-duplicate
removal, then the name-duplicate resolution loop
`for i in range(0, 2, len(duplicated))` (note the literal bounds), then
re-indexing to a dense 0-based order (only in the duplicated branch). -/
def compactCatalogue (parseSize : String → Nat) (cat0 : Catalogue) : Option Catalogue :=
  let cat := dropDuplicateRows [] cat0
  let dup := duplicatedRows cat
  if dup.isEmpty then some cat
  else
    match (pythonRange 0 2 dup.length).foldlM
        (fun acc i => dropSmallerOfPair parseSize dup i acc) cat with
    | none => none
    | some cat2 => some (cat2.enum.map (fun p => (p.1, p.2.2)))

/-- One generation of the breadth-first catalogue crawl (the body of the
`while subregion_url_tables:` loop): for each frontier table, fetch every
row's listing page; accumulate the generation's new tables
(`subregion_url_tables_`), and mirror the quirk that
`avail_subregion_url_tables += subregion_url_tables_` appends the whole
running generation list once per frontier table. Returns
(next frontier, additions to the available list, pages fetched). -/
def bfsGeneration (fetcher : String → Except PageError Table) (frontier : List Table) :
    List Table × List Table × Nat :=
  frontier.foldl
    (fun st tbl =>
      let fetched := tbl.map (fun r => fetchTable fetcher r.subregionURL)
      let newTbls := fetched.filterMap id
      let acc := st.1 ++ newTbls
      (acc, st.2.1 ++ acc, st.2.2 + tbl.length))
    ([], [], 0)

/-- The `while subregion_url_tables:` loop, driven by fuel. Returns the
tables appended to the available list plus the fetch count, or `none`
when the fuel runs out before the frontier empties. -/
def bfsWhile (fetcher : String → Except PageError Table) :
    Nat → List Table → Option (List Table × Nat)
  | _, [] => some ([], 0)
  | 0, _ :: _ => none
  | Nat.succ fuel, frontier =>
    let step := bfsGeneration fetcher frontier
    match bfsWhile fetcher fuel step.1 with
    | none => none
    | some (rest, m) => some (step.2.1 ++ rest, step.2.2 + m)

/-- The `try:` block of `get_subregion_downloads_catalogue`
(lines 515-561): fetch the home page (one fetch, yielding the continent
links `continentURLs`), fetch each continent table, run the BFS crawl,
append the home page's own table (unconditionally, so a `None` home
table makes `pd.concat` raise), concatenate, and compact.  Returns the
catalogue (or `none` on any raised exception / fuel exhaustion)
together with the number of page fetches performed. -/
def buildDownloadsCatalogue (fetcher : String → Except PageError Table)
    (homeURL : String) (continentURLs : List String) (parseSize : String → Nat)
    (fuel : Nat) : Option Catalogue × Nat :=
  let contTables := continentURLs.map (fetchTable fetcher)
  let avail0 := contTables.filterMap id
  let fetches0 := 1 + continentURLs.length
  match bfsWhile fetcher fuel avail0 with
  | none => (none, fetches0)
  | some (additions, n) =>
    let homeTable := fetchTable fetcher homeURL
    match homeTable with
    | none => (none, fetches0 + n + 1)
    | some home =>
      let cat0 := concatIgnoreIndex (avail0 ++ additions ++ [home])
      (compactCatalogue parseSize cat0, fetches0 + n + 1)

/-- `get_subregion_downloads_catalogue`: the memoisation wrapper of
lines 504-572.  `cache` is the pickle file (`some v` when the file
exists), `confirmedFlag` the answer of the confirmation collaborator.
Returns (returned value, page fetches performed, cache state after the
call); a successful build persists its result, a failed build leaves
the cache untouched. -/
def get_subregion_downloads_catalogue (fetcher : String → Except PageError Table)
    (homeURL : String) (continentURLs : List String) (parseSize : String → Nat)
    (fuel : Nat) (cache : Option Catalogue) (update confirmedFlag : Bool) :
    Option Catalogue × Nat × Option Catalogue :=
  match cache, update with
  | some v, false => (some v, 0, some v)
  | _, _ =>
    if confirmedFlag then
      match buildDownloadsCatalogue fetcher homeURL continentURLs parseSize fuel with
      | (some cat, n) => (some cat, n, some cat)
      | (none, n) => (none, n, cache)
    else (none, 0, cache)

mutual

/-- A value of the region-subregion tier dictionary: a region with
subregions maps to a nested dictionary, a region without maps to the
`None` left in place by `compile_region_subregion_tier` (modelled as
`leaf`). -/
inductive Tier where
  | leaf : Tier
  | node : TierMap → Tier

/-- A tier dictionary: an ordered association of region names to tier
values. -/
inductive TierMap where
  | nil : TierMap
  | cons : String → Tier → TierMap → TierMap

end

/-- The dictionary as an ordered list of key-value pairs. -/
def TierMap.toList : TierMap → List (String × Tier)
  | .nil => []
  | .cons k v rest => (k, v) :: rest.toList

/-- `list(d.keys())` of a tier dictionary. -/
def TierMap.keys : TierMap → List String
  | .nil => []
  | .cons k _ rest => k :: rest.keys

/-- `more_itertools.unique_everseen` specialised to strings: keep each
element's first occurrence, tracking the already-seen set. -/
def uniqueEverseenAux (seen : List String) : List String → List String
  | [] => []
  | x :: xs =>
    if x ∈ seen then uniqueEverseenAux seen xs
    else x :: uniqueEverseenAux (x :: seen) xs

/-- `list(more_itertools.unique_everseen(l))`. -/
def uniqueEverseen (l : List String) : List String :=
  uniqueEverseenAux [] l

/-- Reassemble the final dictionary of one `compile_region_subregion_tier`
level: entries keep the input key order; a name whose table was `None`
keeps that `None` (a leaf), a name with a table is overwritten by its
recursively compiled sub-dictionary. -/
def assembleTier (subTiers : List (String × Tier)) :
    List (String × Option Table) → TierMap
  | [] => .nil
  | p :: rest =>
    match p.2 with
    | none => .cons p.1 Tier.leaf (assembleTier subTiers rest)
    | some _ =>
      .cons p.1 ((subTiers.lookup p.1).getD Tier.leaf) (assembleTier subTiers rest)

/-- The `while having_subregions_temp:` drain of
`compile_region_subregion_tier`: process each region that has a table,
fetch every listed child's own page table, compile one level down via
`next` (the recursive call one fuel lower), and collect that level's
tier entries and leaf-name contributions. -/
def compileHaving (fetcher : String → Except PageError Table)
    (next : List (String × Option Table) → Option (TierMap × List String)) :
    List (String × Table) → Option (List (String × Tier) × List String)
  | [] => some ([], [])
  | (nm, t) :: rest =>
    let subTbls := t.map (fun r => (r.subregion, fetchTable fetcher r.subregionURL))
    match next subTbls with
    | none => none
    | some (subTier, without) =>
      match compileHaving fetcher next rest with
      | none => none
      | some (entries, extra) =>
        some ((nm, Tier.node subTier) :: entries, without ++ extra)

/-- The body of `compile_region_subregion_tier` up to, but excluding,
its last dedup line: classify each name with a `None` table as a leaf,
recursively compile every name that has a table (the recursive call is
the full function, so a child's contribution arrives already deduped,
as in the source), and return the tier dictionary together with the
accumulated `non_subregions_list` exactly as built: this level's leaf
names in input order followed by each having-region's contribution in
order. `none` reports fuel exhaustion of the unbounded recursive
descent. -/
def compileRegionSubregionTierRaw (fetcher : String → Except PageError Table) :
    Nat → List (String × Option Table) → Option (TierMap × List String)
  | 0, _ => none
  | Nat.succ fuel, tbls =>
    let leafNames := (tbls.filter (fun p => p.2.isNone)).map Prod.fst
    let having := tbls.filterMap (fun p => p.2.map (fun t => (p.1, t)))
    match compileHaving fetcher
        (fun sub => (compileRegionSubregionTierRaw fetcher fuel sub).map
          (fun p => (p.1, uniqueEverseen p.2))) having with
    | none => none
    | some (subTiers, extra) =>
      some (assembleTier subTiers tbls, leafNames ++ extra)

/-- `compile_region_subregion_tier`: the accumulated result with its
returned leaf-name list deduplicated preserving first-seen order
(`non_subregions_list = list(more_itertools.unique_everseen(non_subregions_list))`,
line 450). -/
def compileRegionSubregionTier (fetcher : String → Except PageError Table)
    (fuel : Nat) (tbls : List (String × Option Table)) :
    Option (TierMap × List String) :=
  (compileRegionSubregionTierRaw fetcher fuel tbls).map
    (fun p => (p.1, uniqueEverseen p.2))

/-- The generator `find_subregions(reg_name, reg_sub_idx)` inside
`retrieve_names_of_subregions_of`, returning the list of yielded
values: at a matching key, yield the child-name list when the value is
a dictionary and `[reg_name]` when it is not; at a non-matching
dictionary value, recurse. -/
def find_subregions (name : String) : TierMap → List (List String)
  | .nil => []
  | .cons k Tier.leaf rest =>
    (if name = k then [[name]] else []) ++ find_subregions name rest
  | .cons k (Tier.node kids) rest =>
    (if name = k then [kids.keys]
     else find_subregions name kids) ++ find_subregions name rest

/-- `retrieve_names_of_subregions_of(name)` for a single name with
`deep=False`: resolve the name, then take the first list yielded by
`find_subregions` (`list(...)[0]`). `none` reports the `IndexError`
raised when nothing is yielded, and likewise the no-match resolver
outcome (matching nothing in the tier). -/
def retrieve_names_of_subregions_of (resolveName : String → Option String)
    (tier : TierMap) (name : String) : Option (List String) :=
  match resolveName name with
  | none => none
  | some n2 => (find_subregions n2 tier).head?

/-- Column access `row[file_format_]` on the three format columns. -/
def formatURL (r : CatalogRow) (fmt : String) : Option String :=
  if fmt = ".osm.pbf" then r.pbfURL
  else if fmt = ".shp.zip" then r.shpURL
  else if fmt = ".osm.bz2" then r.bz2URL
  else none

/-- `get_subregion_download_url`: canonicalize the file format by
similarity match against `ValidFileFormats` (the collaborator
`resolveFmt` stands for `find_similar_str`) and assert membership of
the closed set; resolve the subregion name (`resolveName` stands for
`regulate_input_subregion_name`), raising `ValueError` on a falsy
result; then look the row up by name, raising `KeyError` when the name
is not a catalogue key. -/
def get_subregion_download_url (resolveFmt : String → List String → Option String)
    (resolveName : String → Option String) (catalogue : List CatalogRow)
    (subregion_name osm_file_format : String) :
    Except String (String × Option String) :=
  match resolveFmt osm_file_format ValidFileFormats with
  | none => .error "AssertionError: file_format must be one of ValidFileFormats"
  | some file_format_ =>
    if file_format_ ∈ ValidFileFormats then
      match resolveName subregion_name with
      | none => .error "ValueError: the input subregion_name is not identified"
      | some subregion_name_ =>
        if subregion_name_ = "" then
          .error "ValueError: the input subregion_name is not identified"
        else
          match catalogue.find? (fun r => r.subregion == subregion_name_) with
          | none => .error "KeyError"
          | some row => .ok (subregion_name_, formatURL row file_format_)
    else .error "AssertionError: file_format must be one of ValidFileFormats"

/-- The per-segment canonicalisation of line 735 of
`get_default_path_to_osm_file`:
`find_similar_str(x, subregion_names) if x != 'us' else 'United States'`. -/
def canonical_dir_segment (resolve : String → Option String) (x : String) :
    Option String :=
  if x ≠ "us" then resolve x else some "United States"

/-- The directory computation of `get_default_path_to_osm_file`
(lines 728-736), starting from the already-parsed URL path segments:
prepend the resolved subregion name when the path has a single segment,
drop the filename segment, and canonicalise each remaining segment. -/
def get_default_path_to_osm_file_dirs (resolve : String → Option String)
    (subregion_name_ : String) (parsed_path : List String) : List (Option String) :=
  let pp := if parsed_path.length = 1 then subregion_name_ :: parsed_path else parsed_path
  pp.dropLast.map (canonical_dir_segment resolve)

/-- The observable outcome of one direct-hit item of the download loop:
skipped because the target file already exists, downloaded (one
downloader call that succeeded), download failed (one downloader call
whose exception was caught and reported), or cancelled at the
confirmation prompt. Each carries the resolved subregion name. -/
inductive Event where
  | skippedExisting : String → Event
  | downloaded : String → Event
  | downloadFailed : String → Event
  | cancelled : String → Event
deriving DecidableEq, Repr

/-- The subregion name an event reports on. -/
def eventName : Event → String
  | .skippedExisting n => n
  | .downloaded n => n
  | .downloadFailed n => n
  | .cancelled n => n

/-- Number of calls made to the external single-file downloader
(`download_file_from_url`): one per downloaded or download-failed
event. -/
def downloaderCalls (evs : List Event) : Nat :=
  (evs.filter (fun e =>
    match e with
    | .downloaded _ => true
    | .downloadFailed _ => true
    | _ => false)).length

/-- The collaborators and fixed arguments of one
`download_subregion_osm_file` call. `downloadOK` is the outcome of the
external downloader per URL, `pathOf` the target path computed for a
resolved name (`get_default_path_to_osm_file` /
`get_default_osm_filename` composition), `fileExists` the
`os.path.isfile` oracle. -/
structure DownloadEnv where
  resolveFmt : String → List String → Option String
  resolveName : String → Option String
  catalogue : List CatalogRow
  fmt : String
  tier : TierMap
  pathOf : String → String
  fileExists : String → Bool
  update : Bool
  confirmedFlag : Bool
  downloadOK : String → Bool

/-- The direct-hit body of the download loop (lines 943-958): skip when
the target file exists and no update is requested; otherwise, behind
the confirmation gate, call the downloader once, catching a failure. -/
def directHit (env : DownloadEnv) (name url : String) : Event :=
  if env.fileExists (env.pathOf name) && !env.update then .skippedExisting name
  else if env.confirmedFlag then
    if env.downloadOK url then .downloaded name else .downloadFailed name
  else .cancelled name

/-- Result of a `download_subregion_osm_file` call: the per-item event
log on completion, `raised` when an uncaught exception (ValueError,
KeyError, IndexError) aborts the call, `outOfFuel` when the modelled
recursion depth budget is exhausted before the recursion bottoms out. -/
inductive DownloadResult where
  | outOfFuel : DownloadResult
  | raised : DownloadResult
  | done : List Event → DownloadResult
deriving DecidableEq, Repr

/-- `download_subregion_osm_file` (lines 910-965): for each requested
name, resolve name and URL; on a direct hit run the per-item body; on a
format miss expand to `retrieve_names_of_subregions_of` and recurse on
the returned names. The fuel bounds the number of processed items plus
recursive expansions; the Python code has no such bound. -/
def download_subregion_osm_file (env : DownloadEnv) :
    Nat → List String → DownloadResult
  | _, [] => .done []
  | 0, _ :: _ => .outOfFuel
  | Nat.succ fuel, name :: rest =>
    match get_subregion_download_url env.resolveFmt env.resolveName env.catalogue
        name env.fmt with
    | .error _ => .raised
    | .ok (n_, some url) =>
      match download_subregion_osm_file env fuel rest with
      | .done evs => .done (directHit env n_ url :: evs)
      | r => r
    | .ok (n_, none) =>
      match retrieve_names_of_subregions_of env.resolveName env.tier n_ with
      | none => .raised
      | some subs =>
        match download_subregion_osm_file env fuel subs with
        | .done evs =>
          match download_subregion_osm_file env fuel rest with
          | .done evs2 => .done (evs ++ evs2)
          | r => r
        | r => r

/-- The canonical name an item of the batch resolves to (used to state
which item each event belongs to). -/
def resolved_name (env : DownloadEnv) (nm : String) : String :=
  match get_subregion_download_url env.resolveFmt env.resolveName env.catalogue
      nm env.fmt with
  | .ok p => p.1
  | .error _ => nm

/-! ### Concrete instances used by the counterexamples and witnesses -/

/-- A catalogue row offering only the primary format. -/
def mkRow (name url : String) (size : Option String) : CatalogRow :=
  { subregion := name, subregionURL := url, pbfURL := some (url ++ "-latest.osm.pbf"),
    shpURL := none, bz2URL := none, pbfSize := size }

/-- A page oracle on which two continent pages cross-list the same two
subregion names with different reported sizes. -/
def c1fetcher : String → Except PageError Table := fun u =>
  if u = "europe" then .ok [mkRow "Russian Federation" "rf-eu" (some "300"),
                            mkRow "Germany" "de-eu" (some "250")]
  else if u = "asia" then .ok [mkRow "Russian Federation" "rf-as" (some "200"),
                               mkRow "Germany" "de-as" (some "180")]
  else if u = "home" then .ok []
  else .error .valueError

/-- A concrete stand-in for `humanfriendly.parse_size` on plain decimal
strings. -/
def simpleParseSize : String → Nat := fun s =>
  s.toList.foldl (fun n c => n * 10 + (c.toNat - 48)) 0

/-- The compacted catalogue the code produces from `c1fetcher`. -/
def c1catalogue : Catalogue :=
  (get_subregion_downloads_catalogue c1fetcher "home" ["europe", "asia"]
    simpleParseSize 5 none false true).1.getD []

/-- The Antarctica catalogue row: `.osm.pbf` and `.osm.bz2` are offered,
`.shp.zip` is not (as on the live site). -/
def antarcticaRow : CatalogRow :=
  { subregion := "Antarctica", subregionURL := "antarctica.html",
    pbfURL := some "antarctica-latest.osm.pbf", shpURL := none,
    bz2URL := some "antarctica-latest.osm.bz2", pbfSize := some "900" }

/-- Requesting the shapefile archive of the leaf region Antarctica. -/
def envAntarctica : DownloadEnv :=
  { resolveFmt := fun s _ => if s = ".shp.zip" then some ".shp.zip" else none,
    resolveName := fun s => if s = "Antarctica" then some "Antarctica" else none,
    catalogue := [antarcticaRow],
    fmt := ".shp.zip",
    tier := .cons "Antarctica" Tier.leaf .nil,
    pathOf := id, fileExists := fun _ => false, update := false,
    confirmedFlag := true, downloadOK := fun _ => true }

/-- A page oracle that fails on every page. -/
def failFetcher : String → Except PageError Table := fun _ => .error .connectionErr

/-- A catalogue row for Greater London with all three formats offered. -/
def londonRow : CatalogRow :=
  { subregion := "Greater London", subregionURL := "greater-london.html",
    pbfURL := some "greater-london-latest.osm.pbf",
    shpURL := some "greater-london-latest-free.shp.zip",
    bz2URL := some "greater-london-latest.osm.bz2", pbfSize := some "60" }

/-- A direct-hit environment whose target file already exists. -/
def envSkip : DownloadEnv :=
  { resolveFmt := fun s _ => if s = ".osm.pbf" ∨ s = ".pbf" then some ".osm.pbf" else none,
    resolveName := fun s => if s = "london" then some "Greater London" else none,
    catalogue := [londonRow],
    fmt := ".osm.pbf",
    tier := .cons "Greater London" Tier.leaf .nil,
    pathOf := id, fileExists := fun _ => true, update := false,
    confirmedFlag := true, downloadOK := fun _ => true }

/-- `envSkip` with `update=True`. -/
def envForce : DownloadEnv :=
  { envSkip with update := true }

/-- A two-item batch whose downloader fails on the first URL and
succeeds on the second. -/
def envBatch : DownloadEnv :=
  { resolveFmt := fun s _ => if s = ".osm.pbf" then some ".osm.pbf" else none,
    resolveName := fun s =>
      if s = "london" then some "Greater London"
      else if s = "rutland" then some "Rutland" else none,
    catalogue := [londonRow, mkRow "Rutland" "rutland" (some "10")],
    fmt := ".osm.pbf",
    tier := .cons "Greater London" Tier.leaf (.cons "Rutland" Tier.leaf .nil),
    pathOf := id, fileExists := fun _ => false, update := false,
    confirmedFlag := true,
    downloadOK := fun u => u ≠ "greater-london-latest.osm.pbf" }

/-- The similarity resolver of the C7 counterexample: it knows the
continent segment and nothing else. -/
def c7resolve : String → Option String := fun s =>
  if s = "north-america" then some "North America" else none

/-! ### Properties of `unique_everseen` -/

theorem mem_uniqueEverseenAux {a : String} :
    ∀ (l seen : List String), a ∈ uniqueEverseenAux seen l ↔ a ∈ l ∧ a ∉ seen := by
  intro l
  induction l with
  | nil => intro seen; simp [uniqueEverseenAux]
  | cons x xs ih =>
    intro seen
    by_cases hx : x ∈ seen
    · simp only [uniqueEverseenAux, if_pos hx, ih, List.mem_cons]
      constructor
      · rintro ⟨h1, h2⟩; exact ⟨Or.inr h1, h2⟩
      · rintro ⟨h1 | h1, h2⟩
        · exact absurd (h1 ▸ hx) h2
        · exact ⟨h1, h2⟩
    · simp only [uniqueEverseenAux, if_neg hx, List.mem_cons, ih]
      constructor
      · rintro (rfl | ⟨h1, h2⟩)
        · exact ⟨Or.inl rfl, hx⟩
        · exact ⟨Or.inr h1, fun hs => h2 (Or.inr hs)⟩
      · rintro ⟨rfl | h1, h2⟩
        · exact Or.inl rfl
        · by_cases hax : a = x
          · exact Or.inl hax
          · exact Or.inr ⟨h1, by simp [List.mem_cons, hax, h2]⟩

theorem nodup_uniqueEverseenAux :
    ∀ (l seen : List String), (uniqueEverseenAux seen l).Nodup := by
  intro l
  induction l with
  | nil => intro seen; simp [uniqueEverseenAux]
  | cons x xs ih =>
    intro seen
    by_cases hx : x ∈ seen
    · simpa [uniqueEverseenAux, if_pos hx] using ih seen
    · simp only [uniqueEverseenAux, if_neg hx, List.nodup_cons]
      refine ⟨fun hmem => ?_, ih (x :: seen)⟩
      exact ((mem_uniqueEverseenAux xs (x :: seen)).1 hmem).2 (List.mem_cons_self x seen)

theorem sublist_uniqueEverseenAux :
    ∀ (l seen : List String), (uniqueEverseenAux seen l).Sublist l := by
  intro l
  induction l with
  | nil => intro seen; simp [uniqueEverseenAux]
  | cons x xs ih =>
    intro seen
    by_cases hx : x ∈ seen
    · simpa [uniqueEverseenAux, if_pos hx] using (ih seen).cons x
    · simpa [uniqueEverseenAux, if_neg hx] using (ih (x :: seen)).cons₂ x

theorem pairwise_indexOf_uniqueEverseenAux :
    ∀ (l seen : List String),
      (uniqueEverseenAux seen l).Pairwise (fun a b => l.indexOf a < l.indexOf b) := by
  intro l
  induction l with
  | nil => intro seen; simp [uniqueEverseenAux]
  | cons x xs ih =>
    intro seen
    by_cases hx : x ∈ seen
    · simp only [uniqueEverseenAux, if_pos hx]
      refine (ih seen).imp_of_mem ?_
      intro a b ha hb hlt
      have ha2 := (mem_uniqueEverseenAux xs seen).1 ha
      have hb2 := (mem_uniqueEverseenAux xs seen).1 hb
      have hax : x ≠ a := fun h => ha2.2 (h ▸ hx)
      have hbx : x ≠ b := fun h => hb2.2 (h ▸ hx)
      rw [List.indexOf_cons_ne xs hax, List.indexOf_cons_ne xs hbx]
      exact Nat.succ_lt_succ hlt
    · simp only [uniqueEverseenAux, if_neg hx, List.pairwise_cons]
      constructor
      · intro b hb
        have hb2 := (mem_uniqueEverseenAux xs (x :: seen)).1 hb
        have hbx : x ≠ b := fun h => hb2.2 (h ▸ List.mem_cons_self x seen)
        rw [List.indexOf_cons_self, List.indexOf_cons_ne xs hbx]
        exact Nat.succ_pos _
      · refine (ih (x :: seen)).imp_of_mem ?_
        intro a b ha hb hlt
        have ha2 := (mem_uniqueEverseenAux xs (x :: seen)).1 ha
        have hb2 := (mem_uniqueEverseenAux xs (x :: seen)).1 hb
        have hax : x ≠ a := fun h => ha2.2 (h ▸ List.mem_cons_self x seen)
        have hbx : x ≠ b := fun h => hb2.2 (h ▸ List.mem_cons_self x seen)
        rw [List.indexOf_cons_ne xs hax, List.indexOf_cons_ne xs hbx]
        exact Nat.succ_lt_succ hlt

theorem uniqueEverseen_spec (l : List String) :
    (uniqueEverseen l).Nodup ∧ (uniqueEverseen l).Sublist l ∧
      (∀ a, a ∈ uniqueEverseen l ↔ a ∈ l) ∧
      (uniqueEverseen l).Pairwise (fun a b => l.indexOf a < l.indexOf b) := by
  refine ⟨nodup_uniqueEverseenAux l [], sublist_uniqueEverseenAux l [], ?_,
    pairwise_indexOf_uniqueEverseenAux l []⟩
  intro a
  rw [uniqueEverseen, mem_uniqueEverseenAux]
  simp

/-! ### Properties of the tier assembly -/

theorem assembleTier_toList (subTiers : List (String × Tier)) :
    ∀ tbls : List (String × Option Table),
      (assembleTier subTiers tbls).toList = tbls.map (fun p =>
        match p.2 with
        | none => (p.1, Tier.leaf)
        | some _ => (p.1, ((subTiers.lookup p.1).getD Tier.leaf))) := by
  intro tbls
  induction tbls with
  | nil => rfl
  | cons p rest ih =>
    cases h : p.2 with
    | none => simp [assembleTier, h, TierMap.toList, ih]
    | some t => simp [assembleTier, h, TierMap.toList, ih]

theorem assembleTier_keys (subTiers : List (String × Tier))
    (tbls : List (String × Option Table)) :
    (assembleTier subTiers tbls).toList.map Prod.fst = tbls.map Prod.fst := by
  rw [assembleTier_toList, List.map_map]
  refine List.map_congr_left ?_
  rintro ⟨a, b⟩ _
  cases b <;> rfl

/-! ### Claim theorems -/

/-- C8. For every hierarchy build that completes, the returned
no-subregions list is duplicate-free, and it is the first-seen-order
deduplication of the traversal's accumulated leaf-name list — the
`non_subregions_list` the same build accumulated before its final
dedup line, returned by `compileRegionSubregionTierRaw` on the same
inputs: a sublist of that list with the same members whose entries are
ordered by their first-occurrence position in it (so the surviving
occurrence of each name is the first-seen one). -/
theorem compile_tier_leaf_list_dedup_first_seen
    (fetcher : String → Except PageError Table) (fuel : Nat)
    (tbls : List (String × Option Table)) (tier : TierMap) (leaves : List String)
    (h : compileRegionSubregionTier fetcher fuel tbls = some (tier, leaves)) :
    leaves.Nodup ∧ ∃ raw : List String,
      compileRegionSubregionTierRaw fetcher fuel tbls = some (tier, raw) ∧
      leaves = uniqueEverseen raw ∧
      leaves.Sublist raw ∧ (∀ a, a ∈ leaves ↔ a ∈ raw) ∧
      leaves.Pairwise (fun a b => raw.indexOf a < raw.indexOf b) := by
  unfold compileRegionSubregionTier at h
  cases hA : compileRegionSubregionTierRaw fetcher fuel tbls with
  | none => rw [hA] at h; exact absurd h (by simp)
  | some p =>
    rw [hA] at h
    obtain ⟨tier0, raw⟩ := p
    simp only [Option.map_some', Option.some.injEq, Prod.mk.injEq] at h
    obtain ⟨hn, hs, hm, hp⟩ := uniqueEverseen_spec raw
    refine ⟨h.2 ▸ hn, raw, ?_, h.2.symm, h.2 ▸ hs, h.2 ▸ hm, h.2 ▸ hp⟩
    rw [h.1]

/-- C8 witness: two continents cross-list the same leaf subregion, so
the accumulated traversal list carries the name twice; the returned
leaf list keeps one first-seen occurrence of it. -/
theorem compile_tier_leaf_list_dedup_first_seen_witness :
    (["Russian Federation"] : List String).Nodup ∧ ∃ raw : List String,
      compileRegionSubregionTierRaw failFetcher 2
        [("Europe", some [mkRow "Russian Federation" "rf-eu" (some "300")]),
         ("Asia", some [mkRow "Russian Federation" "rf-as" (some "200")])] =
        some (.cons "Europe" (Tier.node (.cons "Russian Federation" Tier.leaf .nil))
          (.cons "Asia" (Tier.node (.cons "Russian Federation" Tier.leaf .nil)) .nil),
          raw) ∧
      ["Russian Federation"] = uniqueEverseen raw ∧
      (["Russian Federation"] : List String).Sublist raw ∧
      (∀ a, a ∈ (["Russian Federation"] : List String) ↔ a ∈ raw) ∧
      (["Russian Federation"] : List String).Pairwise
        (fun a b => raw.indexOf a < raw.indexOf b) :=
  compile_tier_leaf_list_dedup_first_seen failFetcher 2
    [("Europe", some [mkRow "Russian Federation" "rf-eu" (some "300")]),
     ("Asia", some [mkRow "Russian Federation" "rf-as" (some "200")])]
    (.cons "Europe" (Tier.node (.cons "Russian Federation" Tier.leaf .nil))
      (.cons "Asia" (Tier.node (.cons "Russian Federation" Tier.leaf .nil)) .nil))
    ["Russian Federation"] rfl

/-- C6. A page fetch or parse failure yields the no-table sentinel
(`get_subregion_table` returns `None`), and the hierarchy compiler
classifies a name whose table is that sentinel as a leaf — the name
lands in the no-subregions list and maps to the leaf value in the tier
dictionary — while the traversal still processes every input name
(the tier keeps exactly the input key sequence). -/
theorem fetch_failure_degrades_to_leaf (e : PageError)
    (fetcher : String → Except PageError Table) (fuel : Nat)
    (tbls : List (String × Option Table)) (tier : TierMap) (leaves : List String)
    (k : String)
    (hc : compileRegionSubregionTier fetcher fuel tbls = some (tier, leaves))
    (hk : (k, (none : Option Table)) ∈ tbls) :
    get_subregion_table (Except.error e) = none ∧
    k ∈ leaves ∧ (k, Tier.leaf) ∈ tier.toList ∧
    tier.toList.map Prod.fst = tbls.map Prod.fst := by
  refine ⟨rfl, ?_⟩
  unfold compileRegionSubregionTier at hc
  cases hA : compileRegionSubregionTierRaw fetcher fuel tbls with
  | none => rw [hA] at hc; exact absurd hc (by simp)
  | some p =>
    rw [hA] at hc
    obtain ⟨tier0, raw⟩ := p
    simp only [Option.map_some', Option.some.injEq, Prod.mk.injEq] at hc
    obtain ⟨htier, hleaves⟩ := hc
    cases fuel with
    | zero => simp [compileRegionSubregionTierRaw] at hA
    | succ fuel =>
      rw [compileRegionSubregionTierRaw] at hA
      split at hA
      · exact absurd hA (by simp)
      · rename_i subTiers extra hH
        simp only [Option.some.injEq, Prod.mk.injEq] at hA
        obtain ⟨htier0, hraw⟩ := hA
        have hleaf : k ∈ (tbls.filter (fun p => p.2.isNone)).map Prod.fst := by
          refine List.mem_map.2 ⟨(k, none), ?_, rfl⟩
          exact List.mem_filter.2 ⟨hk, rfl⟩
        refine ⟨?_, ?_, ?_⟩
        · rw [← hleaves, ← hraw, uniqueEverseen, mem_uniqueEverseenAux]
          exact ⟨List.mem_append_left _ hleaf, by simp⟩
        · rw [← htier, ← htier0, assembleTier_toList]
          exact List.mem_map.2 ⟨(k, none), hk, rfl⟩
        · rw [← htier, ← htier0, assembleTier_keys]

/-- C6 witness: a fetch failure on both continent pages makes both
top-level names leaves and the build still succeeds. -/
theorem fetch_failure_degrades_to_leaf_witness :
    get_subregion_table (Except.error PageError.connectionErr) = none ∧
    "Antarctica" ∈ (["Antarctica", "Asia"] : List String) ∧
    ("Antarctica", Tier.leaf) ∈
      (TierMap.cons "Antarctica" Tier.leaf (.cons "Asia" Tier.leaf .nil)).toList ∧
    (TierMap.cons "Antarctica" Tier.leaf (.cons "Asia" Tier.leaf .nil)).toList.map
        Prod.fst =
      ([("Antarctica", (none : Option Table)), ("Asia", none)]).map Prod.fst :=
  fetch_failure_degrades_to_leaf PageError.connectionErr failFetcher 1
    [("Antarctica", none), ("Asia", none)]
    (.cons "Antarctica" Tier.leaf (.cons "Asia" Tier.leaf .nil))
    ["Antarctica", "Asia"] "Antarctica" rfl (by decide)

theorem eventName_directHit (env : DownloadEnv) (n u : String) :
    eventName (directHit env n u) = n := by
  unfold directHit
  split_ifs <;> rfl

theorem download_nil (env : DownloadEnv) (fuel : Nat) :
    download_subregion_osm_file env fuel [] = .done [] := by
  cases fuel <;> rfl

/-- C2. Requesting a format with no URL for a leaf region makes the
orchestrator expand the region to its "subregions" — but
`retrieve_names_of_subregions_of` returns the leaf region's own name,
so the recursion re-requests the very same name and never reaches a
base case: for every depth budget, the run is still unfinished. -/
theorem download_leaf_region_requests_itself_forever :
    retrieve_names_of_subregions_of envAntarctica.resolveName envAntarctica.tier
      "Antarctica" = some ["Antarctica"] ∧
    ∀ fuel : Nat, download_subregion_osm_file envAntarctica fuel ["Antarctica"] =
      DownloadResult.outOfFuel := by
  refine ⟨rfl, ?_⟩
  intro fuel
  induction fuel with
  | zero => rfl
  | succ n ih =>
    have h : download_subregion_osm_file envAntarctica (n + 1) ["Antarctica"] =
        (match download_subregion_osm_file envAntarctica n ["Antarctica"] with
         | .done evs =>
           (match download_subregion_osm_file envAntarctica n ([] : List String) with
            | .done evs2 => DownloadResult.done (evs ++ evs2)
            | r => r)
         | r => r) := rfl
    rw [h, ih]

/-- C3. For a name resolving to a direct download URL: when the target
file already exists and `update` is false, the item is reported as
already available and the external downloader is called zero times;
when `update` is true and the download is confirmed, the downloader is
called exactly once for the item. -/
theorem download_skip_existing_and_forced_update (env : DownloadEnv)
    (name n_ url : String) (fuel : Nat)
    (hres : get_subregion_download_url env.resolveFmt env.resolveName env.catalogue
        name env.fmt = .ok (n_, some url)) :
    (env.fileExists (env.pathOf n_) = true → env.update = false →
      download_subregion_osm_file env (fuel + 1) [name] =
        .done [Event.skippedExisting n_] ∧
      downloaderCalls [Event.skippedExisting n_] = 0) ∧
    (env.update = true → env.confirmedFlag = true →
      ∃ ev, download_subregion_osm_file env (fuel + 1) [name] = .done [ev] ∧
        downloaderCalls [ev] = 1) := by
  have hstep : download_subregion_osm_file env (fuel + 1) [name] =
      .done [directHit env n_ url] := by
    simp only [download_subregion_osm_file, hres]
  constructor
  · intro hf hu
    have hd : directHit env n_ url = .skippedExisting n_ := by
      simp [directHit, hf, hu]
    rw [hstep, hd]
    exact ⟨rfl, rfl⟩
  · intro hu hc
    have hd : directHit env n_ url =
        (if env.downloadOK url then Event.downloaded n_ else Event.downloadFailed n_) := by
      simp [directHit, hu, hc]
    refine ⟨if env.downloadOK url then Event.downloaded n_ else Event.downloadFailed n_,
      by rw [hstep, hd], ?_⟩
    cases hok : env.downloadOK url <;> simp [hok, downloaderCalls]

/-- C3 witness: with the file present and no update requested the loop
reports the item as already available with zero downloader calls; with
`update=True` and confirmation it performs exactly one downloader
call. -/
theorem download_skip_existing_and_forced_update_witness :
    (download_subregion_osm_file envSkip 1 ["london"] =
        .done [Event.skippedExisting "Greater London"] ∧
      downloaderCalls [Event.skippedExisting "Greater London"] = 0) ∧
    (∃ ev, download_subregion_osm_file envForce 1 ["london"] = .done [ev] ∧
      downloaderCalls [ev] = 1) :=
  ⟨(download_skip_existing_and_forced_update envSkip "london" "Greater London"
      "greater-london-latest.osm.pbf" 0 rfl).1 rfl rfl,
   (download_skip_existing_and_forced_update envForce "london" "Greater London"
      "greater-london-latest.osm.pbf" 0 rfl).2 rfl rfl⟩

/-- C5. When every requested name resolves to a direct download URL,
the loop completes with exactly one reported outcome per requested
name, in request order — for every downloader behaviour, including
one that fails on any subset of the items: a per-item download failure
is caught and never aborts the batch. -/
theorem download_failure_not_fatal_to_batch (env : DownloadEnv) :
    ∀ (names : List String) (fuel : Nat),
    (∀ nm ∈ names, ∃ n_ url,
      get_subregion_download_url env.resolveFmt env.resolveName env.catalogue
        nm env.fmt = .ok (n_, some url)) →
    names.length ≤ fuel →
    ∃ evs, download_subregion_osm_file env fuel names = .done evs ∧
      evs.map eventName = names.map (resolved_name env) := by
  intro names
  induction names with
  | nil => exact fun fuel _ _ => ⟨[], download_nil env fuel, rfl⟩
  | cons nm rest ih =>
    intro fuel hall hlen
    obtain ⟨n_, url, hres⟩ := hall nm (List.mem_cons_self nm rest)
    cases fuel with
    | zero => exact absurd hlen (by simp)
    | succ f =>
      obtain ⟨evs, heq, hmap⟩ := ih f
        (fun x hx => hall x (List.mem_cons_of_mem nm hx)) (Nat.le_of_succ_le_succ hlen)
      refine ⟨directHit env n_ url :: evs, ?_, ?_⟩
      · simp only [download_subregion_osm_file, hres, heq]
      · have hr : resolved_name env nm = n_ := by
          unfold resolved_name; rw [hres]
        simp [eventName_directHit, hmap, hr]

/-- C5 witness: a two-item batch whose downloader fails on the first
item still processes both items, reporting the failure for the first
and completing the second. -/
theorem download_failure_not_fatal_to_batch_witness :
    (∃ evs, download_subregion_osm_file envBatch 2 ["london", "rutland"] = .done evs ∧
      evs.map eventName = (["london", "rutland"]).map (resolved_name envBatch)) ∧
    download_subregion_osm_file envBatch 2 ["london", "rutland"] =
      .done [Event.downloadFailed "Greater London", Event.downloaded "Rutland"] :=
  ⟨download_failure_not_fatal_to_batch envBatch ["london", "rutland"] 2
    (by
      intro nm h
      simp only [List.mem_cons, List.not_mem_nil, or_false] at h
      rcases h with rfl | rfl
      · exact ⟨"Greater London", "greater-london-latest.osm.pbf", rfl⟩
      · exact ⟨"Rutland", "rutland-latest.osm.pbf", rfl⟩)
    (by decide),
   by decide⟩

/-- C4. When the name resolver finds no match (or the falsy empty
match) for the input string, `get_subregion_download_url` raises the
`ValueError` to its caller at once — the result is that error, never a
substituted lookup. -/
theorem unresolvable_name_raises_value_error
    (resolveFmt : String → List String → Option String)
    (resolveName : String → Option String) (catalogue : List CatalogRow)
    (name fmt f : String)
    (hf : resolveFmt fmt ValidFileFormats = some f) (hfv : f ∈ ValidFileFormats)
    (hn : resolveName name = none ∨ resolveName name = some "") :
    get_subregion_download_url resolveFmt resolveName catalogue name fmt =
      .error "ValueError: the input subregion_name is not identified" := by
  unfold get_subregion_download_url
  rw [hf]
  rcases hn with h | h <;> rw [h] <;> simp [hfv]

/-- C4 witness: a resolver that matches nothing makes the lookup raise
for the nonsense input. -/
theorem unresolvable_name_raises_value_error_witness :
    get_subregion_download_url (fun _ _ => some ".osm.pbf") (fun _ => none)
      [londonRow] "no such place" ".pbf" =
      .error "ValueError: the input subregion_name is not identified" :=
  unresolvable_name_raises_value_error (fun _ _ => some ".osm.pbf") (fun _ => none)
    [londonRow] "no such place" ".pbf" ".osm.pbf" rfl (by decide) (Or.inl rfl)

/-- C10. Every successful `get_subregion_download_url` call went
through the format canonicalisation: the similarity match against the
closed three-element format set produced a member `f` of that set, and
the returned URL is exactly the looked-up row's column for `f` — so
every catalogue column access uses one of the three formats, while
abbreviated inputs are accepted whenever the matcher maps them into
the set. -/
theorem format_canonicalised_to_closed_set
    (resolveFmt : String → List String → Option String)
    (resolveName : String → Option String) (catalogue : List CatalogRow)
    (name fmt : String) (p : String × Option String)
    (h : get_subregion_download_url resolveFmt resolveName catalogue name fmt =
      .ok p) :
    ∃ f, resolveFmt fmt ValidFileFormats = some f ∧ f ∈ ValidFileFormats ∧
      ∃ row, catalogue.find? (fun r => r.subregion == p.1) = some row ∧
        p.2 = formatURL row f := by
  unfold get_subregion_download_url at h
  split at h
  · exact absurd h (by simp)
  · rename_i f hf
    split at h
    · rename_i hfv
      split at h
      · exact absurd h (by simp)
      · rename_i n_ hn
        split at h
        · exact absurd h (by simp)
        · rename_i hne
          split at h
          · exact absurd h (by simp)
          · rename_i row hrow
            simp only [Except.ok.injEq] at h
            exact ⟨f, hf, hfv, row, by rw [← h]; exact hrow, by rw [← h]⟩
    · exact absurd h (by simp)

/-- C10 witness: the abbreviated input `".pbf"` is canonicalised to
`".osm.pbf"` and the lookup reads that column of the matched row. -/
theorem format_canonicalised_to_closed_set_witness :
    ∃ f, (fun (s : String) (_ : List String) =>
        if s = ".pbf" then some ".osm.pbf" else none) ".pbf" ValidFileFormats =
        some f ∧ f ∈ ValidFileFormats ∧
      ∃ row, ([londonRow].find? (fun r =>
          r.subregion == (("Greater London", some "greater-london-latest.osm.pbf") :
            String × Option String).1)) = some row ∧
        (("Greater London", some "greater-london-latest.osm.pbf") :
          String × Option String).2 = formatURL row f :=
  format_canonicalised_to_closed_set
    (fun s _ => if s = ".pbf" then some ".osm.pbf" else none)
    (fun s => if s = "london" then some "Greater London" else none)
    [londonRow] "london" ".pbf"
    ("Greater London", some "greater-london-latest.osm.pbf") rfl

/-- C7 counterexample. The special case of `get_default_path_to_osm_file`
is the case-sensitive comparison `x != 'us'`: the upper-case segment
`"US"` is not rewritten to `"United States"` but handed to the
approximate matcher, here one that knows only the continent segment —
the produced directory segments carry no `"United States"` at all. -/
theorem us_segment_case_sensitive_counterexample :
    get_default_path_to_osm_file_dirs c7resolve "United States"
        ["north-america", "US", "us-latest.osm.pbf"] = [some "North America", none] ∧
    some "United States" ∉ get_default_path_to_osm_file_dirs c7resolve "United States"
        ["north-america", "US", "us-latest.osm.pbf"] := by
  constructor <;> decide

/-- C7 as amended: only the exact lower-case segment `"us"` is
special-cased — whenever a directory-position segment is the literal
string `"us"`, the produced directory path maps that position to
`"United States"`, for every approximate matcher. -/
theorem us_lowercase_segment_maps_to_united_states
    (resolve : String → Option String) (subregion_name_ : String)
    (parsed_path : List String) (i : Nat)
    (h : ((if parsed_path.length = 1 then subregion_name_ :: parsed_path
           else parsed_path).dropLast)[i]? = some "us") :
    (get_default_path_to_osm_file_dirs resolve subregion_name_ parsed_path)[i]? =
      some (some "United States") := by
  unfold get_default_path_to_osm_file_dirs
  rw [List.getElem?_map, h]
  rfl

/-- C7 amended witness: the lower-case segment of the real URL path
`north-america/us/california-latest.osm.pbf` is rewritten for a matcher
that knows nothing. -/
theorem us_lowercase_segment_maps_to_united_states_witness :
    (get_default_path_to_osm_file_dirs (fun _ => none) "California"
        ["north-america", "us", "california-latest.osm.pbf"])[1]? =
      some (some "United States") :=
  us_lowercase_segment_maps_to_united_states (fun _ => none) "California"
    ["north-america", "us", "california-latest.osm.pbf"] 1 (by decide)

/-- C9. When a first `get_subregion_downloads_catalogue` invocation
leaves a persisted catalogue `p` in the cache, a second invocation
without `update` returns exactly `p`, performs zero page fetches and
leaves the cache unchanged. -/
theorem catalogue_cache_hit_returns_persisted_with_zero_fetches
    (fetcher : String → Except PageError Table) (homeURL : String)
    (continentURLs : List String) (parseSize : String → Nat) (fuel : Nat)
    (c0 : Option Catalogue) (update confirmedFlag confirmedFlag2 : Bool)
    (res : Option Catalogue) (n : Nat) (p : Catalogue)
    (_h : get_subregion_downloads_catalogue fetcher homeURL continentURLs parseSize
        fuel c0 update confirmedFlag = (res, n, some p)) :
    get_subregion_downloads_catalogue fetcher homeURL continentURLs parseSize
        fuel (some p) false confirmedFlag2 = (some p, 0, some p) :=
  rfl

/-- C9 witness: after a build that persisted its result, the repeat
call is answered from the cache with zero fetches. -/
theorem catalogue_cache_hit_returns_persisted_with_zero_fetches_witness :
    get_subregion_downloads_catalogue c1fetcher "home" ["europe", "asia"]
        simpleParseSize 5 (c1catalogue) false true = (some c1catalogue, 0, some c1catalogue) :=
  catalogue_cache_hit_returns_persisted_with_zero_fetches c1fetcher "home"
    ["europe", "asia"] simpleParseSize 5 none false true true
    (some c1catalogue) 8 c1catalogue rfl

/-- C1. Evaluating the catalogue build on a crawl whose pages cross-list
two subregion names with distinct sizes: the compacted catalogue keeps
the name `"Russian Federation"` twice (not exactly once), and for
`"Germany"` it keeps the smaller-sized row (180) after discarding the
larger duplicate (250) — because the duplicate-resolution loop
`for i in range(0, 2, len(duplicated))` executes for `i = 0` only and
pairs the duplicated rows positionally instead of by name. -/
theorem compaction_keeps_duplicate_and_smaller_row :
    c1catalogue.map (fun p => p.2.subregion) =
      ["Russian Federation", "Russian Federation", "Germany"] ∧
    (c1catalogue.map (fun p => p.2.subregion)).count "Russian Federation" = 2 ∧
    (c1catalogue.filter (fun p => p.2.subregion == "Germany")).map
        (fun p => p.2.pbfSize) = [some "180"] := by
  refine ⟨by decide, by decide, by decide⟩

end Pydriosm
